import Mathlib

/-!
Verification development for the ripfix batch pipeline orchestrator.

The definitions below are a shallow embedding of the Go sources: paths and
other strings are modelled as lists of characters, the filesystem and the
external collaborator tools (pdftoppm, tesseract, ps2pdf) are oracles handed
in through environment records, and the stateful worker function is written
as a pure function returning the emitted event trace together with counters
of collaborator invocations.
-/

/-- Paths and other Go strings are modelled as lists of characters. -/
abbrev Str := List Char

/-- Go `strings.Contains(s, sub)`: `sub` occurs (contiguously) in `s`. -/
def strContains : Str → Str → Bool
  | s, sub =>
    if sub.isPrefixOf s then true
    else
      match s with
      | [] => false
      | _ :: rest => strContains rest sub

/-- Go `strings.TrimSuffix(s, suffix)`: drop `suffix` when it is a suffix of `s`. -/
def goTrimSuffix (s suffix : Str) : Str :=
  if suffix.isSuffixOf s then s.take (s.length - suffix.length) else s

/-- Helper for `goExt`: scan the reversed path; `acc` holds, in correct order,
the characters already scanned (those after the candidate dot). -/
def goExtAux : List Char → List Char → Str
  | _, [] => []
  | acc, c :: rest =>
    if c = '/' then []
    else if c = '.' then '.' :: acc
    else goExtAux (c :: acc) rest

/-- Go `filepath.Ext(p)`: the suffix beginning at the final dot in the final
slash-separated element of the path; empty when there is no dot. -/
def goExt (p : Str) : Str := goExtAux [] p.reverse

/-- Strip trailing `/` characters (first step of Go `filepath.Base`). -/
def dropTrailingSlashes (p : Str) : Str := (p.reverse.dropWhile (· = '/')).reverse

/-- The part of the path after the last `/` (whole path when there is none). -/
def afterLastSlash (p : Str) : Str := (p.reverse.takeWhile (· ≠ '/')).reverse

/-- Go `filepath.Base(p)` for unix paths. -/
def goBase (p : Str) : Str :=
  if p = [] then ['.']
  else
    let q := dropTrailingSlashes p
    let r := afterLastSlash q
    if r = [] then ['/'] else r

/-- Helper for `replaceFirst` when the pattern is nonempty: replace the
leftmost occurrence of `old` in `s` by `new`. -/
def replaceFirstAux : Str → Str → Str → Str
  | [], _, _ => []
  | c :: rest, old, new =>
    if old.isPrefixOf (c :: rest) then new ++ (c :: rest).drop old.length
    else c :: replaceFirstAux rest old new

/-- Go `strings.Replace(s, old, new, 1)`: replace the first occurrence of
`old` by `new`; an empty `old` matches at the start of `s`. -/
def replaceFirst (s old new : Str) : Str :=
  if old = [] then new ++ s else replaceFirstAux s old new

/-- The already-processed marker, `suffixFixed` in the source. -/
def suffixFixed : Str := "_fixed".toList

/-- The literal `".pdf"`. -/
def pdfExt : Str := ".pdf".toList

/-- The literal `"none"` compression style. -/
def noneStr : Str := "none".toList

/-- The post-recognition output stem crafted in `ripFixWorkFunc`:
`fmt.Sprintf("%s%s%s", out, strings.TrimSuffix(filepath.Base(pdf), filepath.Ext(filepath.Base(pdf))), suffixFixed)`.
The `out` value always carries a trailing slash (enforced in `init`). -/
def outFileOf (out pdf : Str) : Str :=
  out ++ goTrimSuffix (goBase pdf) (goExt (goBase pdf)) ++ suffixFixed

/-- The compressed artifact path crafted in `ripFixWorkFunc`:
`fmt.Sprintf("%s_%s.pdf", outFile, compress)`. -/
def compressFileOf (out pdf compress : Str) : Str :=
  outFileOf out pdf ++ "_".toList ++ compress ++ pdfExt

/-- The source basename stripped of its extension, as the spec words it
(`<source-basename-without-extension>`). -/
def specStem (pdf : Str) : Str := goTrimSuffix (goBase pdf) (goExt (goBase pdf))

/-- Modelled from the spec: the naming convention
`<output-dir>/<source-basename-without-extension>_fixed.<ext>` for the
post-recognition artifact (`outDir` carries its trailing slash). -/
def specFixedArtifact (outDir pdf : Str) : Str :=
  outDir ++ specStem pdf ++ "_fixed.pdf".toList

/-- Modelled from the spec: the naming convention
`<output-dir>/<source-basename-without-extension>_fixed_<style>.<ext>` for the
compressed artifact. -/
def specCompressedArtifact (outDir pdf style : Str) : Str :=
  outDir ++ specStem pdf ++ "_fixed_".toList ++ style ++ pdfExt

/-- A minimal filesystem view: file contents (as byte lists; `none` when the
file does not exist or cannot be opened) and permission bits. -/
structure MiniFS where
  content : Str → Option (List Nat)
  mode : Str → Nat

/-- Go `fileExists` (`os.Stat` + `errors.Is(err, fs.ErrNotExist)`). -/
def fileExists (fs : MiniFS) (p : Str) : Bool := (fs.content p).isSome

/-- The effect of one successful `copyFile`: `dst` now holds `bytes` with
`src`'s permission bits; everything else is untouched. -/
def fsWrite (fs : MiniFS) (src dst : Str) (bytes : List Nat) : MiniFS :=
  { content := fun p => if p = dst then some bytes else fs.content p
    mode := fun p => if p = dst then fs.mode src else fs.mode p }

/-- `copyFile(src, dst)` from the source: open `src` (error when it cannot be
read), stat it for its permission bits, create/truncate `dst` with those bits
(`createOk` is the oracle for that `OpenFile`/`io.Copy` succeeding), and copy
the bytes. Returns the number of bytes copied and the updated filesystem. -/
def copyFile (createOk : Str → Bool) (fs : MiniFS) (src dst : Str) :
    Option (Nat × MiniFS) :=
  match fs.content src with
  | none => none
  | some bytes =>
    if createOk dst then some (bytes.length, fsWrite fs src dst bytes)
    else none

/-- The Deduplication Index (`dupeMap`, a `sync.Map`): an association list
from content hash to the ordered list of source paths sharing that hash.
The Go code stores a bare `string` for the first path and a `[]string`
afterwards; both are represented here as the ordered list, first path
(the canonical one) at the head. -/
abbrev DupeMap := List (Str × List Str)

/-- Lookup in the Deduplication Index (`dupeMap.Load`). -/
def dmLookup : DupeMap → Str → Option (List Str)
  | [], _ => none
  | (k, w) :: rest, h => if k = h then some w else dmLookup rest h

/-- Store in the Deduplication Index (`dupeMap.Store`), replacing any
existing entry for the key. -/
def dmStore : DupeMap → Str → List Str → DupeMap
  | [], h, v => [(h, v)]
  | (k, w) :: rest, h, v =>
    if k = h then (h, v) :: rest else (k, w) :: dmStore rest h v

/-- Progress events emitted by the worker, one constructor per emission site
of `ripFixWorkFunc`/`ripfix`/`resolveDupes` (the human-readable message text
is abstracted to the site; `update` is `racket.PUpdate`). -/
inductive Ev where
  | workMsg
  | mkdirErr
  | reprocessSkipMsg
  | compressExistsMsg
  | pdfToTiffMsg
  | tiffListMsg
  | tesseractMsg
  | ripfixErr
  | fixedFoundMsg
  | compressMsg
  | compressErr
  | compressFoundMsg
  | completedMsg (productFile : Str)
  | update (n : Int)
  | dupeSkipMsg (pf : Str)
  | dupeCopyMsg (pf : Str)
deriving DecidableEq

/-- The progress messages whose Go text contains `"Completed Work!"`
(the reprocess skip, the compressed-artifact early exit, and the final
celebration). -/
def isCompletionMsg : Ev → Bool
  | Ev.reprocessSkipMsg => true
  | Ev.compressExistsMsg => true
  | Ev.completedMsg _ => true
  | _ => false

/-- A Work Item, with the fields `ripFixWorkFunc` reads from `racket.Work`. -/
structure Work where
  id : Str
  pdf : Str
  temp : Str
  out : Str
  compress : Str
  skipExisting : Bool
  reprocess : Bool
  clean : Bool
  dupes : Bool

/-- Oracles for the per-item effects: scratch-directory creation and the
three external collaborators, plus hashing and destination-file creation
used by the duplicate-copy stage. -/
structure RunEnv where
  mkdirTemp : Bool
  pdfToTiffOk : Bool
  tiffListOk : Bool
  tesseractOk : Bool
  compressOk : Bool
  hashOf : Str → Option Str
  createOk : Str → Bool

/-- Result of the `ripfix` helper (extract + recognize): its emitted trace,
the number of rasterization (`pdfToTiff`) and recognition (`tesseract`)
invocations, and whether it returned without error. -/
structure StageOut where
  trace : List Ev
  raster : Nat
  recognize : Nat
  ok : Bool

/-- The `ripfix` helper: invoke `pdfToTiff`, then `createTiffList`, then
`tesseract`, stopping at the first failure. -/
def ripfixRun (env : RunEnv) : StageOut :=
  if env.pdfToTiffOk then
    if env.tiffListOk then
      if env.tesseractOk then ⟨[Ev.tiffListMsg, Ev.tesseractMsg], 1, 1, true⟩
      else ⟨[Ev.tiffListMsg, Ev.tesseractMsg], 1, 1, false⟩
    else ⟨[Ev.tiffListMsg], 1, 0, false⟩
  else ⟨[], 1, 0, false⟩

/-- Result of the main body of `ripFixWorkFunc` (before the deferred
duplicate-copy stage): emitted trace, collaborator invocation counts, and
the `productFile` value the deferred `resolveDupes` call will observe. -/
structure BodyOut where
  trace : List Ev
  raster : Nat
  recognize : Nat
  compressCalls : Nat
  productFile : Str

/-- The tail of `ripFixWorkFunc` after the Extract+Recognize decision: the
optional Compress stage followed by the completion events. `t`, `ra`, `rec`
carry the trace and counters accumulated so far. -/
def compressStage (env : RunEnv) (fs : MiniFS) (w : Work)
    (compressFile productFile : Str) (t : List Ev) (ra rec : Nat) : BodyOut :=
  if w.compress = noneStr then
    ⟨t ++ [Ev.completedMsg productFile, Ev.update 1], ra, rec, 0, productFile⟩
  else if w.skipExisting ∧ fileExists fs compressFile then
    ⟨t ++ [Ev.compressFoundMsg, Ev.completedMsg productFile, Ev.update 1],
      ra, rec, 0, productFile⟩
  else if env.compressOk then
    ⟨t ++ [Ev.compressMsg, Ev.completedMsg productFile, Ev.update 1],
      ra, rec, 1, productFile⟩
  else
    ⟨t ++ [Ev.compressMsg, Ev.compressErr], ra, rec, 1, productFile⟩

/-- The `productFile` value set early in `ripFixWorkFunc`, before any stage
runs: the compressed artifact when a style is requested, otherwise the
post-recognition artifact. -/
def productFileOf (out pdf compress : Str) : Str :=
  if compress ≠ noneStr then compressFileOf out pdf compress
  else outFileOf out pdf ++ pdfExt

/-- The main body of `ripFixWorkFunc` (current generation, with the
`reprocess` pre-check and the compressed-product early exit), excluding the
deferred duplicate-copy stage. Go's early error returns are rendered as the
`else` arms; the guard of the Extract+Recognize stage (`!(skipExisting &&
fileExists(outFile+".pdf"))`) is rendered with its skip branch first. -/
def ripFixBody (env : RunEnv) (fs : MiniFS) (w : Work) : BodyOut :=
  if env.mkdirTemp then
    if w.reprocess ∧ ¬ (fileExists fs (outFileOf w.out w.pdf)
        ∨ fileExists fs (compressFileOf w.out w.pdf w.compress)) then
      ⟨[Ev.workMsg, Ev.reprocessSkipMsg, Ev.update 1], 0, 0, 0,
        productFileOf w.out w.pdf w.compress⟩
    else if w.compress ≠ noneStr ∧ w.skipExisting
        ∧ fileExists fs (compressFileOf w.out w.pdf w.compress) then
      ⟨[Ev.workMsg, Ev.compressExistsMsg, Ev.update 1], 0, 0, 0,
        productFileOf w.out w.pdf w.compress⟩
    else if w.skipExisting ∧ fileExists fs (outFileOf w.out w.pdf ++ pdfExt) then
      compressStage env fs w (compressFileOf w.out w.pdf w.compress)
        (productFileOf w.out w.pdf w.compress) [Ev.workMsg, Ev.fixedFoundMsg] 0 0
    else if (ripfixRun env).ok then
      compressStage env fs w (compressFileOf w.out w.pdf w.compress)
        (productFileOf w.out w.pdf w.compress)
        ([Ev.workMsg, Ev.pdfToTiffMsg] ++ (ripfixRun env).trace)
        (ripfixRun env).raster (ripfixRun env).recognize
    else
      ⟨[Ev.workMsg, Ev.pdfToTiffMsg] ++ (ripfixRun env).trace ++ [Ev.ripfixErr],
        (ripfixRun env).raster, (ripfixRun env).recognize, 0,
        productFileOf w.out w.pdf w.compress⟩
  else ⟨[Ev.workMsg, Ev.mkdirErr], 0, 0, 0, []⟩

/-- Result of the duplicate-copy stage: trace, performed byte-copies
(source, destination), the filesystem after the copies, and whether an
unrecovered runtime failure (`fatal`) occurred. -/
structure DupeOut where
  trace : List Ev
  copies : List (Str × Str)
  fs : MiniFS
  fatal : Bool

/-- The loop body of `resolveDupes` over the recorded paths `ns`:
skip the canonical source itself; compute the copy target with
`strings.Replace(productFile, base, baseF, 1)`; honour `skip-if-exists`;
otherwise byte-copy, treating a copy failure as unrecovered (`fatal`). -/
def resolveLoop (createOk : Str → Bool) (skipE : Bool)
    (basePDF base productFile : Str) : List Str → MiniFS → DupeOut
  | [], fs => ⟨[], [], fs, false⟩
  | f :: rest, fs =>
    if f = basePDF then resolveLoop createOk skipE basePDF base productFile rest fs
    else
      let baseF := goTrimSuffix f (goExt f)
      let pf := replaceFirst productFile base baseF
      if skipE ∧ fileExists fs pf then
        let d := resolveLoop createOk skipE basePDF base productFile rest fs
        ⟨Ev.dupeSkipMsg pf :: d.trace, d.copies, d.fs, d.fatal⟩
      else
        match copyFile createOk fs productFile pf with
        | none => ⟨[Ev.dupeCopyMsg pf], [], fs, true⟩
        | some (_, fs') =>
          let d := resolveLoop createOk skipE basePDF base productFile rest fs'
          ⟨Ev.dupeCopyMsg pf :: d.trace, (productFile, pf) :: d.copies, d.fs, d.fatal⟩

/-- `resolveDupes`: hash the canonical source (a hashing failure is an
unrecovered runtime failure), look the hash up in the Deduplication Index,
and copy the canonical artifact to every other recorded path's expected
artifact path. `skipE` is the global `skipExisting` flag the Go code reads. -/
def resolveDupes (env : RunEnv) (dm : DupeMap) (skipE : Bool)
    (basePDF productFile : Str) (fs : MiniFS) : DupeOut :=
  match env.hashOf basePDF with
  | none => ⟨[], [], fs, true⟩
  | some h =>
    match dmLookup dm h with
    | none => ⟨[], [], fs, false⟩
    | some ns =>
      resolveLoop env.createOk skipE basePDF
        (goTrimSuffix basePDF (goExt basePDF)) productFile ns fs

/-- Overall result of one `ripFixWorkFunc` execution. -/
structure RunResult where
  trace : List Ev
  raster : Nat
  recognize : Nat
  compressCalls : Nat
  copies : List (Str × Str)
  fs : MiniFS
  fatal : Bool

/-- `ripFixWorkFunc`: the main body followed by the deferred
`resolveDupes` call (which runs on every exit path when `dupes` is set,
observing the `productFile` value left by the body). -/
def ripFixWorkFunc (env : RunEnv) (fs : MiniFS) (dm : DupeMap)
    (skipGlobal : Bool) (w : Work) : RunResult :=
  let b := ripFixBody env fs w
  if w.dupes then
    let d := resolveDupes env dm skipGlobal w.pdf b.productFile fs
    ⟨b.trace ++ d.trace, b.raster, b.recognize, b.compressCalls,
      d.copies, d.fs, d.fatal⟩
  else
    ⟨b.trace, b.raster, b.recognize, b.compressCalls, [], fs, false⟩

/-- What `os.Stat` reports about a path in the List Builder model. -/
structure FileMeta where
  isDir : Bool
deriving DecidableEq

/-- Environment for `buildList`: `stat` (`none` = stat error), `glob`
(`none` = `filepath.Glob` error, `some l` = the sorted match list, possibly
empty), and the content hash of each file (`none` = hashing error). -/
structure BuildEnv where
  stat : Str → Option FileMeta
  glob : Str → Option (List Str)
  hashOf : Str → Option Str

/-- Result of `buildList`: the work list and the final Deduplication Index,
together with the total-count estimate sent on the count channel (only the
outermost call sends one); `fatal` models a Go panic, and `fuelOut` marks
exhaustion of the glob-recursion fuel (never reached in the theorems below). -/
inductive BRes where
  | ok (l : List Str) (dm : DupeMap) (est : Option Nat)
  | fatal
  | fuelOut
deriving DecidableEq

/-- The loop of `buildList`: skip paths containing the `_fixed` marker,
recursively expand glob patterns (a glob error is a panic), panic on a
failed stat, silently skip directories, and — when deduplication is on —
hash each file and either record it as a duplicate in the Index (excluded
from the list) or store it as the canonical path and keep it. `fuel` is a
structural recursion budget (one unit per processed path or glob
expansion); with enough fuel it never runs out. -/
def buildListAux (env : BuildEnv) (dupes : Bool) :
    Nat → List Str → DupeMap → BRes
  | 0, _, _ => .fuelOut
  | _ + 1, [], dm => .ok [] dm none
  | fuel + 1, f :: fs, dm =>
    if strContains f suffixFixed then buildListAux env dupes fuel fs dm
    else if strContains f "*".toList || strContains f "?".toList then
      match env.glob f with
      | none => .fatal
      | some gfiles =>
        match buildListAux env dupes fuel gfiles dm with
        | .ok l1 dm1 _ =>
          match buildListAux env dupes fuel fs dm1 with
          | .ok l2 dm2 e => .ok (l1 ++ l2) dm2 e
          | r => r
        | r => r
    else
      match env.stat f with
      | none => .fatal
      | some meta =>
        if meta.isDir then buildListAux env dupes fuel fs dm
        else if dupes then
          match env.hashOf f with
          | none => .fatal
          | some h =>
            match dmLookup dm h with
            | some v => buildListAux env dupes fuel fs (dmStore dm h (v ++ [f]))
            | none =>
              match buildListAux env dupes fuel fs (dmStore dm h [f]) with
              | .ok l2 dm2 e => .ok (f :: l2) dm2 e
              | r => r
        else
          match buildListAux env dupes fuel fs dm with
          | .ok l2 dm2 e => .ok (f :: l2) dm2 e
          | r => r

/-- The outermost `buildList` call, which also sends the total-count
estimate on the count channel when one is attached. -/
def buildList (env : BuildEnv) (dupes : Bool) (count : Bool)
    (fuel : Nat) (files : List Str) (dm : DupeMap) : BRes :=
  match buildListAux env dupes fuel files dm with
  | .ok l dmF _ => .ok l dmF (if count then some l.length else none)
  | r => r

/-- State of the Worker Pool Supervisor: `waiting` workers have been
launched (each holding one semaphore permit) and are waiting on the work
channel or the done signal; `running` workers hold a permit and are
executing the Pipeline Runner on a work item. -/
structure SupState where
  waiting : Nat
  running : Nat
deriving DecidableEq

/-- Transitions of the supervisor/worker system of `supervisor`.
`launch` is the `case <-lock.Until()` arm: it fires only when a permit is
available, i.e. fewer than `N` permits are held (modelled from the spec:
the semaphore has capacity `N`). `takeWork` is a waiting worker winning the
`case w := <-workChan` race; `exitIdle` is a waiting worker observing the
closed `doneChan` and exiting (its deferred `lock.Unlock` releases the
permit); `finish` is a running worker returning (likewise releasing its
permit via the deferred unlock). -/
inductive SupStep (N : Nat) : SupState → SupState → Prop
  | launch : ∀ s : SupState, s.waiting + s.running < N →
      SupStep N s ⟨s.waiting + 1, s.running⟩
  | takeWork : ∀ s : SupState, 0 < s.waiting →
      SupStep N s ⟨s.waiting - 1, s.running + 1⟩
  | exitIdle : ∀ s : SupState, 0 < s.waiting →
      SupStep N s ⟨s.waiting - 1, s.running⟩
  | finish : ∀ s : SupState, 0 < s.running →
      SupStep N s ⟨s.waiting, s.running - 1⟩

/-- States reachable from the start of a run (no workers launched). -/
inductive SupReach (N : Nat) : SupState → Prop
  | init : SupReach N ⟨0, 0⟩
  | step : ∀ s t : SupState, SupReach N s → SupStep N s t → SupReach N t

/-- Modelled from the claim: keep only the first-encountered path of each
content-hash class, `seen` being the classes already taken. -/
def specFirstPerHash (hfun : Str → Str) (seen : Str → Bool) : List Str → List Str
  | [] => []
  | f :: fs =>
    if seen (hfun f) then specFirstPerHash hfun seen fs
    else f :: specFirstPerHash hfun (fun h => if h = hfun f then true else seen h) fs

/-- How a run of the List Builder extends one Deduplication Index entry:
the paths of that hash class, in encounter order, are appended to whatever
the entry already held. -/
def combineEntry : Option (List Str) → List Str → Option (List Str)
  | some v, add => some (v ++ add)
  | none, [] => none
  | none, add => some add

/-- A path the List Builder treats as a plain hashable file: no `_fixed`
marker, no glob metacharacters, a successful stat reporting a non-directory,
and a successful hash equal to `hfun`. -/
def plainFile (env : BuildEnv) (hfun : Str → Str) (f : Str) : Bool :=
  !(strContains f suffixFixed) &&
  !(strContains f "*".toList) && !(strContains f "?".toList) &&
  (match env.stat f with
   | some m => !m.isDir
   | none => false) &&
  decide (env.hashOf f = some (hfun f))

example : goExt "a.pdf".toList = ".pdf".toList := by decide
example : goBase "in/a.pdf".toList = "a.pdf".toList := by decide
example : outFileOf "./".toList "in/a.pdf".toList = "./a_fixed".toList := by decide
example : compressFileOf "./".toList "a.pdf".toList "ebook".toList
    = "./a_fixed_ebook.pdf".toList := by decide
example : replaceFirst "./a_fixed.pdf".toList "in/a".toList "in/b".toList
    = "./a_fixed.pdf".toList := by decide
example : replaceFirst "./a_fixed.pdf".toList "a".toList "b".toList
    = "./b_fixed.pdf".toList := by decide

/-- Filesystem for the C1 evaluation: only the post-recognition artifact
`./a_fixed.pdf` exists. -/
def c1fs : MiniFS :=
  { content := fun p => if p = "./a_fixed.pdf".toList then some [1] else none
    mode := fun _ => 420 }

/-- Environment for the C1 evaluation: every effect succeeds. -/
def c1env : RunEnv :=
  { mkdirTemp := true, pdfToTiffOk := true, tiffListOk := true
    tesseractOk := true, compressOk := true
    hashOf := fun _ => some [], createOk := fun _ => true }

/-- Work item for the C1 evaluation: `--reprocess` (which also clears
`skipExisting`, as `init` does), no compression, no dedup. -/
def c1w : Work :=
  { id := "i1".toList, pdf := "a.pdf".toList, temp := "/t/".toList
    out := "./".toList, compress := noneStr, skipExisting := false
    reprocess := true, clean := false, dupes := false }

/-- C1: the reprocess-only pre-check is wrong in the code. The
post-recognition artifact `./a_fixed.pdf` exists, so per the claim the item
should run the normal stage sequence; but the code stats the extensionless
stem `./a_fixed` (`fileExists(outFile)` instead of `outFile+".pdf"`), finds
nothing, and takes the terminal no-op branch: zero rasterization and
recognition invocations and the reprocess skip message. -/
theorem reprocess_precheck_misses_fixed_artifact :
    fileExists c1fs (outFileOf c1w.out c1w.pdf ++ pdfExt) = true ∧
    (ripFixWorkFunc c1env c1fs [] false c1w).raster = 0 ∧
    (ripFixWorkFunc c1env c1fs [] false c1w).recognize = 0 ∧
    Ev.reprocessSkipMsg ∈ (ripFixWorkFunc c1env c1fs [] false c1w).trace := by
  decide

/-- Every reachable supervisor state holds at most `N` permits: each
launched worker (waiting or running) holds exactly one. -/
theorem supReach_permits_le {N : Nat} {s : SupState} (h : SupReach N s) :
    s.waiting + s.running ≤ N := by
  induction h with
  | init => simp
  | step s t _ hstep ih => cases hstep <;> simp_all <;> omega

/-- C3: for every maximum concurrency N ≥ 1, in every state reachable by the
supervisor/worker transition system the number of Pipeline Runner executions
in flight is at most N: workers launch only after a semaphore permit is
acquired (the `launch` guard), release it on exit, and the running workers
are a subset of the permit holders. -/
theorem supervisor_concurrency_bound (N : Nat) (_hN : 1 ≤ N) (s : SupState)
    (h : SupReach N s) : s.running ≤ N := by
  have hb := supReach_permits_le h
  omega

/-- Witness for C3 at N = 2 and the reachable state with one running worker. -/
theorem supervisor_concurrency_bound_witness :
    1 ≤ 2 ∧ SupReach 2 ⟨0, 1⟩ ∧ (SupState.mk 0 1).running ≤ 2 := by
  have h1 : SupStep 2 ⟨0, 0⟩ ⟨1, 0⟩ := SupStep.launch ⟨0, 0⟩ (by decide)
  have h2 : SupStep 2 ⟨1, 0⟩ ⟨0, 1⟩ := SupStep.takeWork ⟨1, 0⟩ (by decide)
  have hreach : SupReach 2 ⟨0, 1⟩ :=
    SupReach.step _ _ (SupReach.step _ _ SupReach.init h1) h2
  exact ⟨by decide, hreach, supervisor_concurrency_bound 2 (by decide) ⟨0, 1⟩ hreach⟩

/-- C9: the artifact naming convention. The post-recognition artifact path
built by the worker (`outFile + ".pdf"`) is exactly
`<out><source-basename-without-extension>_fixed.pdf`, and the compressed
artifact path is exactly
`<out><source-basename-without-extension>_fixed_<style>.pdf`; both are pure
functions of source path, output directory and compression style. -/
theorem artifact_naming_convention (out pdf style : Str) :
    outFileOf out pdf ++ pdfExt = specFixedArtifact out pdf ∧
    compressFileOf out pdf style = specCompressedArtifact out pdf style := by
  constructor <;>
    simp [outFileOf, compressFileOf, specFixedArtifact, specCompressedArtifact,
      specStem, suffixFixed, pdfExt, List.append_assoc]

/-- Filesystem for the C2 counterexample: sources live under `in/`, and the
canonical artifact `./a_fixed.pdf` has been produced. -/
def c2fs : MiniFS :=
  { content := fun p =>
      if p = "./a_fixed.pdf".toList then some [7, 7]
      else if p = "in/a.pdf".toList then some [1]
      else if p = "in/b.pdf".toList then some [1] else none
    mode := fun _ => 420 }

/-- Environment for the C2 counterexample: hashing and file creation always
succeed, and both sources share the hash `h`. -/
def c2env : RunEnv :=
  { mkdirTemp := true, pdfToTiffOk := true, tiffListOk := true
    tesseractOk := true, compressOk := true
    hashOf := fun p =>
      if p = "in/a.pdf".toList ∨ p = "in/b.pdf".toList then some "h".toList else none
    createOk := fun _ => true }

/-- Deduplication Index for the C2 counterexample: `in/a.pdf` (canonical)
and `in/b.pdf` share one hash. -/
def c2dm : DupeMap := [("h".toList, ["in/a.pdf".toList, "in/b.pdf".toList])]

/-- Filesystem for the C5 counterexample: only `./a_fixed.pdf` exists. -/
def c5fs : MiniFS :=
  { content := fun p => if p = "./a_fixed.pdf".toList then some [1] else none
    mode := fun _ => 420 }

/-- Environment for the C5 counterexample: everything succeeds except the
compression collaborator. -/
def c5env : RunEnv :=
  { mkdirTemp := true, pdfToTiffOk := true, tiffListOk := true
    tesseractOk := true, compressOk := false
    hashOf := fun _ => some [], createOk := fun _ => true }

/-- Work item for the C5 counterexample: `skip-if-exists` set and an `ebook`
compression target. -/
def c5w : Work :=
  { id := "i1".toList, pdf := "a.pdf".toList, temp := "/t/".toList
    out := "./".toList, compress := "ebook".toList, skipExisting := true
    reprocess := false, clean := false, dupes := false }

/-- C5 counterexample: with `skip-if-exists` set and the post-recognition
artifact present, the Extract+Recognize stage is indeed skipped (zero
rasterization/recognition invocations), but when the requested compression
collaborator then fails the worker emits an error and abandons the item, so
no completion count is emitted — refuting the claim's unconditional
"still emits the completion event and count". -/
theorem skip_existing_no_completion_on_compress_failure :
    c5w.skipExisting = true ∧
    fileExists c5fs (outFileOf c5w.out c5w.pdf ++ pdfExt) = true ∧
    (ripFixWorkFunc c5env c5fs [] true c5w).raster = 0 ∧
    (ripFixWorkFunc c5env c5fs [] true c5w).recognize = 0 ∧
    Ev.update 1 ∉ (ripFixWorkFunc c5env c5fs [] true c5w).trace := by
  decide

/-- Filesystem for the C6 counterexample: the final compressed artifact
`./a_fixed_ebook.pdf` already exists. -/
def c6fs : MiniFS :=
  { content := fun p => if p = "./a_fixed_ebook.pdf".toList then some [1] else none
    mode := fun _ => 420 }

/-- Environment for the C6 counterexample: scratch-directory creation fails. -/
def c6env : RunEnv :=
  { mkdirTemp := false, pdfToTiffOk := true, tiffListOk := true
    tesseractOk := true, compressOk := true
    hashOf := fun _ => some [], createOk := fun _ => true }

/-- Work item for the C6 counterexample. -/
def c6w : Work :=
  { id := "i1".toList, pdf := "a.pdf".toList, temp := "/t/".toList
    out := "./".toList, compress := "ebook".toList, skipExisting := true
    reprocess := false, clean := false, dupes := false }

/-- C6 counterexample: the scratch directory is created before the
early-exit check, so when `MkdirAll` fails the worker emits an error and
returns without the completion message and count, even though a compression
style is requested, `skip-if-exists` is set and the compressed artifact
already exists — refuting the claim's unconditional "skips directly to
completion". -/
theorem compress_early_exit_blocked_by_mkdir_failure :
    c6w.compress ≠ noneStr ∧ c6w.skipExisting = true ∧
    fileExists c6fs (compressFileOf c6w.out c6w.pdf c6w.compress) = true ∧
    Ev.update 1 ∉ (ripFixWorkFunc c6env c6fs [] true c6w).trace ∧
    Ev.mkdirErr ∈ (ripFixWorkFunc c6env c6fs [] true c6w).trace := by
  decide

/-- An environment in which every per-item effect succeeds. -/
def allOkEnv : RunEnv :=
  { mkdirTemp := true, pdfToTiffOk := true, tiffListOk := true
    tesseractOk := true, compressOk := true
    hashOf := fun _ => some [], createOk := fun _ => true }

/-- The full worker run keeps the body's collaborator counts and extends
its trace (the deferred duplicate-copy stage only appends events). -/
theorem ripFixWorkFunc_lift (env : RunEnv) (fs : MiniFS) (dm : DupeMap)
    (skipG : Bool) (w : Work) :
    (ripFixWorkFunc env fs dm skipG w).raster = (ripFixBody env fs w).raster ∧
    (ripFixWorkFunc env fs dm skipG w).recognize = (ripFixBody env fs w).recognize ∧
    (ripFixWorkFunc env fs dm skipG w).compressCalls
      = (ripFixBody env fs w).compressCalls ∧
    ∀ e, e ∈ (ripFixBody env fs w).trace →
      e ∈ (ripFixWorkFunc env fs dm skipG w).trace := by
  unfold ripFixWorkFunc
  by_cases hd : w.dupes = true
  · rw [if_pos hd]
    exact ⟨rfl, rfl, rfl, fun e he => List.mem_append_left _ he⟩
  · rw [if_neg hd]
    exact ⟨rfl, rfl, rfl, fun e he => he⟩

/-- C5 (amended): with `skip-if-exists` set and the post-recognition
artifact present, the worker performs zero rasterization and zero
recognition invocations, unconditionally; and provided the
scratch-directory creation succeeds and the Compress stage is not
requested, is skipped-as-existing, or succeeds, it also emits a completion
message and the completion count. -/
theorem skip_existing_skips_extract_recognize
    (env : RunEnv) (fs : MiniFS) (dm : DupeMap) (skipG : Bool) (w : Work)
    (hskip : w.skipExisting = true)
    (hex : fileExists fs (outFileOf w.out w.pdf ++ pdfExt) = true) :
    (ripFixWorkFunc env fs dm skipG w).raster = 0 ∧
    (ripFixWorkFunc env fs dm skipG w).recognize = 0 ∧
    (env.mkdirTemp = true →
      (w.compress = noneStr ∨
        fileExists fs (compressFileOf w.out w.pdf w.compress) = true ∨
        env.compressOk = true) →
      Ev.update 1 ∈ (ripFixWorkFunc env fs dm skipG w).trace ∧
      ∃ e ∈ (ripFixWorkFunc env fs dm skipG w).trace, isCompletionMsg e = true) := by
  rcases ripFixWorkFunc_lift env fs dm skipG w with ⟨l1, l2, _, l4⟩
  have hcounts : (ripFixBody env fs w).raster = 0 ∧
      (ripFixBody env fs w).recognize = 0 := by
    have hstageCounts : ∀ (t : List Ev) (ra rec : Nat),
        (compressStage env fs w (compressFileOf w.out w.pdf w.compress)
          (productFileOf w.out w.pdf w.compress) t ra rec).raster = ra ∧
        (compressStage env fs w (compressFileOf w.out w.pdf w.compress)
          (productFileOf w.out w.pdf w.compress) t ra rec).recognize = rec := by
      intro t ra rec
      unfold compressStage
      split_ifs <;> exact ⟨rfl, rfl⟩
    unfold ripFixBody
    by_cases hmk : env.mkdirTemp = true
    · rw [if_pos hmk]
      by_cases h2 : w.reprocess ∧ ¬ (fileExists fs (outFileOf w.out w.pdf)
          ∨ fileExists fs (compressFileOf w.out w.pdf w.compress))
      · rw [if_pos h2]
        exact ⟨rfl, rfl⟩
      · rw [if_neg h2]
        by_cases h3 : w.compress ≠ noneStr ∧ w.skipExisting
            ∧ fileExists fs (compressFileOf w.out w.pdf w.compress)
        · rw [if_pos h3]
          exact ⟨rfl, rfl⟩
        · rw [if_neg h3, if_pos ⟨hskip, hex⟩]
          exact hstageCounts [Ev.workMsg, Ev.fixedFoundMsg] 0 0
    · rw [if_neg hmk]
      exact ⟨rfl, rfl⟩
  refine ⟨l1.trans hcounts.1, l2.trans hcounts.2, ?_⟩
  intro hmk hc
  have hstage : ∀ (t : List Ev) (ra rec : Nat),
      Ev.update 1 ∈ (compressStage env fs w (compressFileOf w.out w.pdf w.compress)
        (productFileOf w.out w.pdf w.compress) t ra rec).trace ∧
      ∃ e ∈ (compressStage env fs w (compressFileOf w.out w.pdf w.compress)
        (productFileOf w.out w.pdf w.compress) t ra rec).trace,
        isCompletionMsg e = true := by
    intro t ra rec
    unfold compressStage
    by_cases h4 : w.compress = noneStr
    · rw [if_pos h4]
      exact ⟨by simp,
        ⟨Ev.completedMsg (productFileOf w.out w.pdf w.compress), by simp, rfl⟩⟩
    · rw [if_neg h4]
      by_cases h5 : w.skipExisting ∧ fileExists fs (compressFileOf w.out w.pdf w.compress)
      · rw [if_pos h5]
        exact ⟨by simp,
          ⟨Ev.completedMsg (productFileOf w.out w.pdf w.compress), by simp, rfl⟩⟩
      · rw [if_neg h5]
        have hok : env.compressOk = true := by
          rcases hc with hc | hc | hc
          · exact absurd hc h4
          · exact absurd ⟨hskip, hc⟩ h5
          · exact hc
        rw [if_pos hok]
        exact ⟨by simp,
          ⟨Ev.completedMsg (productFileOf w.out w.pdf w.compress), by simp, rfl⟩⟩
  have hb : Ev.update 1 ∈ (ripFixBody env fs w).trace ∧
      ∃ e ∈ (ripFixBody env fs w).trace, isCompletionMsg e = true := by
    unfold ripFixBody
    rw [if_pos hmk]
    by_cases h2 : w.reprocess ∧ ¬ (fileExists fs (outFileOf w.out w.pdf)
        ∨ fileExists fs (compressFileOf w.out w.pdf w.compress))
    · rw [if_pos h2]
      exact ⟨by simp, ⟨Ev.reprocessSkipMsg, by simp, rfl⟩⟩
    · rw [if_neg h2]
      by_cases h3 : w.compress ≠ noneStr ∧ w.skipExisting
          ∧ fileExists fs (compressFileOf w.out w.pdf w.compress)
      · rw [if_pos h3]
        exact ⟨by simp, ⟨Ev.compressExistsMsg, by simp, rfl⟩⟩
      · rw [if_neg h3, if_pos ⟨hskip, hex⟩]
        exact hstage [Ev.workMsg, Ev.fixedFoundMsg] 0 0
  rcases hb with ⟨h3, e, he, hce⟩
  exact ⟨l4 _ h3, ⟨e, l4 _ he, hce⟩⟩

/-- Witness for C5 (amended) at a concrete item with no compression. -/
theorem skip_existing_skips_extract_recognize_witness :
    (ripFixWorkFunc allOkEnv c5fs [] true
      { id := "i1".toList, pdf := "a.pdf".toList, temp := "/t/".toList
        out := "./".toList, compress := noneStr, skipExisting := true
        reprocess := false, clean := false, dupes := false }).raster = 0 ∧
    (ripFixWorkFunc allOkEnv c5fs [] true
      { id := "i1".toList, pdf := "a.pdf".toList, temp := "/t/".toList
        out := "./".toList, compress := noneStr, skipExisting := true
        reprocess := false, clean := false, dupes := false }).recognize = 0 ∧
    (allOkEnv.mkdirTemp = true →
      ((Work.mk "i1".toList "a.pdf".toList "/t/".toList "./".toList noneStr
          true false false false).compress = noneStr ∨
        fileExists c5fs (compressFileOf "./".toList "a.pdf".toList noneStr) = true ∨
        allOkEnv.compressOk = true) →
      Ev.update 1 ∈ (ripFixWorkFunc allOkEnv c5fs [] true
        { id := "i1".toList, pdf := "a.pdf".toList, temp := "/t/".toList
          out := "./".toList, compress := noneStr, skipExisting := true
          reprocess := false, clean := false, dupes := false }).trace ∧
      ∃ e ∈ (ripFixWorkFunc allOkEnv c5fs [] true
        { id := "i1".toList, pdf := "a.pdf".toList, temp := "/t/".toList
          out := "./".toList, compress := noneStr, skipExisting := true
          reprocess := false, clean := false, dupes := false }).trace,
        isCompletionMsg e = true) :=
  skip_existing_skips_extract_recognize allOkEnv c5fs [] true
    { id := "i1".toList, pdf := "a.pdf".toList, temp := "/t/".toList
      out := "./".toList, compress := noneStr, skipExisting := true
      reprocess := false, clean := false, dupes := false }
    (by decide) (by decide)

/-- C6 (amended): when a compression style is requested, `skip-if-exists`
is set and the compressed artifact exists, then — provided the
scratch-directory creation succeeds, since the code creates the scratch
directory before this check — the worker runs no rasterization, recognition
or compression collaborator and emits the early-exit completion message and
the completion count. -/
theorem compress_early_exit_completion
    (env : RunEnv) (fs : MiniFS) (dm : DupeMap) (skipG : Bool) (w : Work)
    (hc : w.compress ≠ noneStr) (hskip : w.skipExisting = true)
    (hex : fileExists fs (compressFileOf w.out w.pdf w.compress) = true)
    (hmk : env.mkdirTemp = true) :
    (ripFixWorkFunc env fs dm skipG w).raster = 0 ∧
    (ripFixWorkFunc env fs dm skipG w).recognize = 0 ∧
    (ripFixWorkFunc env fs dm skipG w).compressCalls = 0 ∧
    Ev.compressExistsMsg ∈ (ripFixWorkFunc env fs dm skipG w).trace ∧
    Ev.update 1 ∈ (ripFixWorkFunc env fs dm skipG w).trace := by
  have hb : (ripFixBody env fs w).raster = 0 ∧ (ripFixBody env fs w).recognize = 0 ∧
      (ripFixBody env fs w).compressCalls = 0 ∧
      Ev.compressExistsMsg ∈ (ripFixBody env fs w).trace ∧
      Ev.update 1 ∈ (ripFixBody env fs w).trace := by
    unfold ripFixBody
    rw [if_pos hmk]
    rw [if_neg (by
      rintro ⟨-, hno⟩
      exact hno (Or.inr hex))]
    rw [if_pos ⟨hc, hskip, hex⟩]
    exact ⟨rfl, rfl, rfl, by simp, by simp⟩
  rcases ripFixWorkFunc_lift env fs dm skipG w with ⟨l1, l2, l3, l4⟩
  rcases hb with ⟨h1, h2, h3, h4, h5⟩
  exact ⟨l1.trans h1, l2.trans h2, l3.trans h3, l4 _ h4, l4 _ h5⟩

/-- Witness for C6 (amended) at a concrete item whose compressed artifact
already exists. -/
theorem compress_early_exit_completion_witness :
    (ripFixWorkFunc allOkEnv c6fs [] true c6w).raster = 0 ∧
    (ripFixWorkFunc allOkEnv c6fs [] true c6w).recognize = 0 ∧
    (ripFixWorkFunc allOkEnv c6fs [] true c6w).compressCalls = 0 ∧
    Ev.compressExistsMsg ∈ (ripFixWorkFunc allOkEnv c6fs [] true c6w).trace ∧
    Ev.update 1 ∈ (ripFixWorkFunc allOkEnv c6fs [] true c6w).trace :=
  compress_early_exit_completion allOkEnv c6fs [] true c6w
    (by decide) (by decide) (by decide) (by decide)

/-- C7: failures in the duplicate-copy stage are unrecovered runtime
failures (Go panics), not per-item error events. First conjunct: when
`dupes` is set and hashing the source fails, the whole worker run ends
fatally. Second conjunct: when the hash resolves to a recorded class with
at least one other path and the canonical artifact cannot be read for
copying, `resolveDupes` likewise ends fatally. -/
theorem dupe_stage_failures_are_fatal :
    (∀ (env : RunEnv) (fs : MiniFS) (dm : DupeMap) (skipG : Bool) (w : Work),
      w.dupes = true → env.hashOf w.pdf = none →
      (ripFixWorkFunc env fs dm skipG w).fatal = true) ∧
    (∀ (env : RunEnv) (dm : DupeMap) (basePDF productFile : Str) (fs : MiniFS)
        (h : Str) (ns : List Str),
      env.hashOf basePDF = some h → dmLookup dm h = some ns →
      fs.content productFile = none → (∃ f ∈ ns, f ≠ basePDF) →
      (resolveDupes env dm false basePDF productFile fs).fatal = true) := by
  constructor
  · intro env fs dm skipG w hdup hhash
    simp [ripFixWorkFunc, resolveDupes, hdup, hhash]
  · intro env dm basePDF productFile fs h ns hhash hdm hsrc hex
    have loop : ∀ (ms : List Str), (∃ f ∈ ms, f ≠ basePDF) →
        (resolveLoop env.createOk false basePDF
          (goTrimSuffix basePDF (goExt basePDF)) productFile ms fs).fatal = true := by
      intro ms
      induction ms with
      | nil => rintro ⟨f, hf, _⟩; cases hf
      | cons g rest ih =>
        rintro ⟨f, hf, hfne⟩
        by_cases hg : g = basePDF
        · subst hg
          have hfr : f ∈ rest := by
            rcases List.mem_cons.mp hf with rfl | hr
            · exact absurd rfl hfne
            · exact hr
          simpa [resolveLoop] using ih ⟨f, hfr, hfne⟩
        · simp [resolveLoop, hg, copyFile, hsrc]
    rcases hex with ⟨f, hf, hfne⟩
    simpa [resolveDupes, hhash, hdm] using loop ns ⟨f, hf, hfne⟩

/-- No element of a work list produced by the List Builder contains the
`_fixed` marker: literal paths are filtered by the `strings.Contains` check
and glob expansions are re-filtered by the recursive call. -/
theorem buildListAux_no_fixed (env : BuildEnv) (dupes : Bool) :
    ∀ (fuel : Nat) (files : List Str) (dm : DupeMap) (l : List Str)
      (dmF : DupeMap) (e : Option Nat),
      buildListAux env dupes fuel files dm = .ok l dmF e →
      ∀ p ∈ l, strContains p suffixFixed = false := by
  intro fuel
  induction fuel with
  | zero =>
    intro files dm l dmF e h p hp
    simp [buildListAux] at h
  | succ n ih =>
    intro files
    cases files with
    | nil =>
      intro dm l dmF e h p hp
      unfold buildListAux at h
      cases h
      cases hp
    | cons f fs =>
      intro dm l dmF e h p hp
      simp only [buildListAux] at h
      by_cases h1 : strContains f suffixFixed = true
      · rw [if_pos h1] at h
        exact ih fs dm l dmF e h p hp
      · rw [if_neg h1] at h
        by_cases h2 : (strContains f "*".toList || strContains f "?".toList) = true
        · rw [if_pos h2] at h
          cases hgl : env.glob f with
          | none => simp [hgl] at h
          | some gl =>
            simp only [hgl] at h
            cases hr1 : buildListAux env dupes n gl dm with
            | ok l1 dm1 e1 =>
              simp only [hr1] at h
              cases hr2 : buildListAux env dupes n fs dm1 with
              | ok l2 dm2 e2 =>
                simp only [hr2] at h
                injection h with hL hD hE
                rw [← hL] at hp
                rcases List.mem_append.mp hp with hp1 | hp2
                · exact ih gl dm l1 dm1 e1 hr1 p hp1
                · exact ih fs dm1 l2 dm2 e2 hr2 p hp2
              | fatal => simp [hr2] at h
              | fuelOut => simp [hr2] at h
            | fatal => simp [hr1] at h
            | fuelOut => simp [hr1] at h
        · rw [if_neg h2] at h
          cases hst : env.stat f with
          | none => simp [hst] at h
          | some meta =>
            simp only [hst] at h
            by_cases hd : meta.isDir = true
            · rw [if_pos hd] at h
              exact ih fs dm l dmF e h p hp
            · rw [if_neg hd] at h
              by_cases hdup : dupes = true
              · rw [if_pos hdup] at h
                cases hh : env.hashOf f with
                | none => simp [hh] at h
                | some hv =>
                  simp only [hh] at h
                  cases hlk : dmLookup dm hv with
                  | some v =>
                    simp only [hlk] at h
                    exact ih fs (dmStore dm hv (v ++ [f])) l dmF e h p hp
                  | none =>
                    simp only [hlk] at h
                    cases hrec : buildListAux env dupes n fs (dmStore dm hv [f]) with
                    | ok l2 dm2 e2 =>
                      simp only [hrec] at h
                      injection h with hL hD hE
                      rw [← hL] at hp
                      rcases List.mem_cons.mp hp with rfl | hp2
                      · simpa using h1
                      · exact ih fs (dmStore dm hv [f]) l2 dm2 e2 hrec p hp2
                    | fatal => simp [hrec] at h
                    | fuelOut => simp [hrec] at h
              · rw [if_neg hdup] at h
                cases hrec : buildListAux env dupes n fs dm with
                | ok l2 dm2 e2 =>
                  simp only [hrec] at h
                  injection h with hL hD hE
                  rw [← hL] at hp
                  rcases List.mem_cons.mp hp with rfl | hp2
                  · simpa using h1
                  · exact ih fs dm l2 dm2 e2 hrec p hp2
                | fatal => simp [hrec] at h
                | fuelOut => simp [hrec] at h

/-- C8: List Builder error handling. (1) every path in a returned work list
is free of the `_fixed` marker, so prior outputs are never enqueued;
(2) a glob pattern matching zero files contributes nothing and raises no
error; (3) a literal path that cannot be statted is a fatal panic;
(4) directories are silently skipped. -/
theorem buildList_error_handling :
    (∀ (env : BuildEnv) (dupes : Bool) (fuel : Nat) (files : List Str)
        (dm : DupeMap) (l : List Str) (dmF : DupeMap) (e : Option Nat),
      buildListAux env dupes fuel files dm = .ok l dmF e →
      ∀ p ∈ l, strContains p suffixFixed = false) ∧
    (∀ (env : BuildEnv) (dupes : Bool) (fuel : Nat) (files : List Str)
        (dm : DupeMap) (f : Str),
      strContains f suffixFixed = false →
      (strContains f "*".toList || strContains f "?".toList) = true →
      env.glob f = some [] →
      buildListAux env dupes (fuel + 2) (f :: files) dm
        = buildListAux env dupes (fuel + 1) files dm) ∧
    (∀ (env : BuildEnv) (dupes : Bool) (fuel : Nat) (files : List Str)
        (dm : DupeMap) (f : Str),
      strContains f suffixFixed = false →
      (strContains f "*".toList || strContains f "?".toList) = false →
      env.stat f = none →
      buildListAux env dupes (fuel + 1) (f :: files) dm = .fatal) ∧
    (∀ (env : BuildEnv) (dupes : Bool) (fuel : Nat) (files : List Str)
        (dm : DupeMap) (f : Str) (meta : FileMeta),
      strContains f suffixFixed = false →
      (strContains f "*".toList || strContains f "?".toList) = false →
      env.stat f = some meta → meta.isDir = true →
      buildListAux env dupes (fuel + 1) (f :: files) dm
        = buildListAux env dupes fuel files dm) := by
  refine ⟨buildListAux_no_fixed, ?_, ?_, ?_⟩
  · intro env dupes fuel files dm f hfix hglob hgl
    obtain ⟨m, hm⟩ : ∃ m, fuel + 2 = m + 1 := ⟨fuel + 1, rfl⟩
    rw [hm]
    conv_lhs => rw [buildListAux]
    rw [if_neg (by simp [hfix]), if_pos hglob, hgl]
    rw [show m = fuel + 1 from by omega]
    show (match buildListAux env dupes (fuel + 1) files dm with
      | BRes.ok l2 dm2 e => BRes.ok ([] ++ l2) dm2 e
      | r => r) = buildListAux env dupes (fuel + 1) files dm
    cases hrest : buildListAux env dupes (fuel + 1) files dm <;> simp
  · intro env dupes fuel files dm f hfix hglob hstat
    conv_lhs => rw [buildListAux]
    rw [if_neg (by rw [hfix]; simp), if_neg (by rw [hglob]; simp), hstat]
  · intro env dupes fuel files dm f meta hfix hglob hstat hdir
    conv_lhs => rw [buildListAux]
    rw [if_neg (by rw [hfix]; simp), if_neg (by rw [hglob]; simp), hstat]
    simp [hdir]

/-- Lookup after store in the Deduplication Index. -/
theorem dmLookup_dmStore (dm : DupeMap) (h : Str) (v : List Str) (h' : Str) :
    dmLookup (dmStore dm h v) h' = if h' = h then some v else dmLookup dm h' := by
  induction dm with
  | nil =>
    show (if h = h' then some v else dmLookup [] h')
      = if h' = h then some v else dmLookup [] h'
    by_cases hh : h = h'
    · rw [if_pos hh, if_pos hh.symm]
    · rw [if_neg hh, if_neg (fun x => hh x.symm)]
  | cons kv rest ih =>
    obtain ⟨k, w⟩ := kv
    show dmLookup (if k = h then (h, v) :: rest else (k, w) :: dmStore rest h v) h'
      = _
    by_cases hk : k = h
    · rw [if_pos hk]
      show (if h = h' then some v else dmLookup rest h') = _
      by_cases hh : h = h'
      · rw [if_pos hh, if_pos hh.symm]
      · rw [if_neg hh, if_neg (fun x => hh x.symm)]
        show _ = if k = h' then some w else dmLookup rest h'
        rw [if_neg (fun x => hh (hk.symm.trans x))]
    · rw [if_neg hk]
      show (if k = h' then some w else dmLookup (dmStore rest h v) h') = _
      by_cases hkh : k = h'
      · rw [if_pos hkh, if_neg (fun x : h' = h => hk (hkh.trans x))]
        show _ = if k = h' then some w else dmLookup rest h'
        rw [if_pos hkh]
      · rw [if_neg hkh, ih]
        by_cases hfin : h' = h
        · rw [if_pos hfin, if_pos hfin]
        · rw [if_neg hfin, if_neg hfin]
          show _ = if k = h' then some w else dmLookup rest h'
          rw [if_neg hkh]

/-- Cons equation for `specFirstPerHash` when the class is already seen. -/
theorem specFirstPerHash_cons_seen (hfun : Str → Str) (seen : Str → Bool)
    (f : Str) (fs : List Str) (h : seen (hfun f) = true) :
    specFirstPerHash hfun seen (f :: fs) = specFirstPerHash hfun seen fs := by
  simp only [specFirstPerHash]
  rw [if_pos h]

/-- Cons equation for `specFirstPerHash` when the class is new. -/
theorem specFirstPerHash_cons_new (hfun : Str → Str) (seen : Str → Bool)
    (f : Str) (fs : List Str) (h : seen (hfun f) = false) :
    specFirstPerHash hfun seen (f :: fs)
      = f :: specFirstPerHash hfun
          (fun x => if x = hfun f then true else seen x) fs := by
  simp only [specFirstPerHash]
  rw [if_neg (by rw [h]; simp)]

/-- Unpack the `plainFile` conjunction. -/
theorem plainFile_spec {env : BuildEnv} {hfun : Str → Str} {f : Str}
    (h : plainFile env hfun f = true) :
    strContains f suffixFixed = false ∧
    strContains f "*".toList = false ∧ strContains f "?".toList = false ∧
    (∃ meta, env.stat f = some meta ∧ meta.isDir = false) ∧
    env.hashOf f = some (hfun f) := by
  unfold plainFile at h
  cases hst : env.stat f with
  | none => rw [hst] at h; simp at h
  | some meta =>
    rw [hst] at h
    simp only [Bool.and_eq_true, Bool.not_eq_true', decide_eq_true_eq] at h
    exact ⟨h.1.1.1.1, h.1.1.1.2, h.1.1.2, ⟨meta, rfl, by simpa using h.1.2⟩, h.2⟩

/-- The List Builder with deduplication, against the spec-side selection:
starting from index `dm`, the returned work list is exactly the
first-per-hash-class selection (classes already in `dm` counting as seen),
and each index entry is extended by the class members in encounter order. -/
theorem buildListAux_dupes_spec (env : BuildEnv) (hfun : Str → Str) :
    ∀ (files : List Str) (fuel : Nat) (dm : DupeMap),
      files.length ≤ fuel →
      (∀ f ∈ files, plainFile env hfun f = true) →
      ∃ dmF,
        buildListAux env true (fuel + 1) files dm
          = .ok (specFirstPerHash hfun (fun h => (dmLookup dm h).isSome) files)
              dmF none ∧
        ∀ h, dmLookup dmF h
          = combineEntry (dmLookup dm h)
              (files.filter (fun f => decide (hfun f = h))) := by
  intro files
  induction files with
  | nil =>
    intro fuel dm _ _
    refine ⟨dm, rfl, fun h => ?_⟩
    cases dmLookup dm h <;> simp [combineEntry]
  | cons f fs ih =>
    intro fuel dm hlen H
    obtain ⟨m, rfl⟩ : ∃ m, fuel = m + 1 := by
      cases fuel with
      | zero => simp at hlen
      | succ m => exact ⟨m, rfl⟩
    have hm : fs.length ≤ m := by simpa using hlen
    obtain ⟨hfix, hstar, hquest, ⟨meta, hst, hdir⟩, hh⟩ :=
      plainFile_spec (H f (List.mem_cons_self f fs))
    have Hfs : ∀ g ∈ fs, plainFile env hfun g = true :=
      fun g hg => H g (List.mem_cons_of_mem f hg)
    simp only [buildListAux]
    rw [if_neg (by rw [hfix]; simp),
      if_neg (by rw [hstar, hquest]; simp)]
    simp only [hst, hdir, Bool.false_eq_true, if_false, if_pos rfl, hh]
    cases hlk : dmLookup dm (hfun f) with
    | some v =>
      simp only [hlk]
      obtain ⟨dmF, heq, hchar⟩ := ih m (dmStore dm (hfun f) (v ++ [f])) hm Hfs
      have hseen : (fun h => (dmLookup (dmStore dm (hfun f) (v ++ [f])) h).isSome)
          = (fun h => (dmLookup dm h).isSome) := by
        funext h
        rw [dmLookup_dmStore]
        by_cases hhf : h = hfun f
        · rw [if_pos hhf, hhf, hlk]
          rfl
        · rw [if_neg hhf]
      rw [hseen] at heq
      refine ⟨dmF, ?_, ?_⟩
      · rw [heq,
          specFirstPerHash_cons_seen hfun _ f fs (by simp [hlk])]
        simp
      · intro h
        rw [hchar h, dmLookup_dmStore]
        by_cases hhf : hfun f = h
        · rw [if_pos hhf.symm, ← hhf, hlk,
            List.filter_cons_of_pos (by simp [hhf])]
          simp [combineEntry, List.append_assoc]
        · rw [if_neg (fun x => hhf x.symm),
            List.filter_cons_of_neg (by simp [hhf])]
    | none =>
      simp only [hlk]
      obtain ⟨dmF, heq, hchar⟩ := ih m (dmStore dm (hfun f) [f]) hm Hfs
      have hseen : (fun h => (dmLookup (dmStore dm (hfun f) [f]) h).isSome)
          = (fun h => if h = hfun f then true else (dmLookup dm h).isSome) := by
        funext h
        rw [dmLookup_dmStore]
        by_cases hhf : h = hfun f
        · rw [if_pos hhf, if_pos hhf]
          rfl
        · rw [if_neg hhf, if_neg hhf]
      rw [hseen] at heq
      refine ⟨dmF, ?_, ?_⟩
      · rw [heq,
          specFirstPerHash_cons_new hfun _ f fs (by simp [hlk])]
        simp
      · intro h
        rw [hchar h, dmLookup_dmStore]
        by_cases hhf : hfun f = h
        · rw [if_pos hhf.symm, ← hhf, hlk,
            List.filter_cons_of_pos (by simp [hhf])]
          simp [combineEntry]
        · rw [if_neg (fun x => hhf x.symm),
            List.filter_cons_of_neg (by simp [hhf])]

/-- The head of a nonempty hash-class filter is selected into the
first-per-hash list whenever its class is not yet seen. -/
theorem head_filter_mem_spec (hfun : Str → Str) :
    ∀ (files : List Str) (seen : Str → Bool) (hsh c : Str) (ds : List Str),
      seen hsh = false →
      files.filter (fun g => decide (hfun g = hsh)) = c :: ds →
      c ∈ specFirstPerHash hfun seen files := by
  intro files
  induction files with
  | nil => intro seen hsh c ds _ hf; simp at hf
  | cons g rest ih =>
    intro seen hsh c ds hseen hf
    by_cases hg : hfun g = hsh
    · rw [List.filter_cons_of_pos (by simp [hg])] at hf
      injection hf with h1 h2
      subst h1
      unfold specFirstPerHash
      rw [if_neg (by rw [hg, hseen]; simp)]
      exact List.mem_cons_self _ _
    · rw [List.filter_cons_of_neg (by simp [hg])] at hf
      unfold specFirstPerHash
      by_cases hs : seen (hfun g) = true
      · rw [if_pos hs]
        exact ih seen hsh c ds hseen hf
      · rw [if_neg hs]
        refine List.mem_cons_of_mem _ (ih _ hsh c ds ?_ hf)
        rw [if_neg (fun hh : hsh = hfun g => hg hh.symm)]
        exact hseen

/-- C4: with deduplication enabled and an initially empty Deduplication
Index, the work list returned by `buildList` is exactly the
first-encountered path of each content-hash class, and every later path of
a class is recorded in the Index entry for its hash behind the canonical
head (which is itself in the work list). -/
theorem buildList_dedupe_first_per_hash (env : BuildEnv) (hfun : Str → Str)
    (files : List Str) (fuel : Nat)
    (hlen : files.length ≤ fuel)
    (H : ∀ f ∈ files, plainFile env hfun f = true) :
    ∃ dmF,
      buildList env true false (fuel + 1) files []
        = .ok (specFirstPerHash hfun (fun _ => false) files) dmF none ∧
      ∀ f ∈ files, f ∉ specFirstPerHash hfun (fun _ => false) files →
        ∃ c ds, dmLookup dmF (hfun f) = some (c :: ds) ∧
          c ∈ specFirstPerHash hfun (fun _ => false) files ∧ f ∈ ds := by
  obtain ⟨dmF, heq, hchar⟩ := buildListAux_dupes_spec env hfun files fuel [] hlen H
  have hempty : (fun h => (dmLookup ([] : DupeMap) h).isSome)
      = (fun _ : Str => false) := funext fun h => rfl
  rw [hempty] at heq
  refine ⟨dmF, ?_, ?_⟩
  · unfold buildList
    rw [heq]
    rfl
  · intro f hf hnot
    have hffil : f ∈ files.filter (fun g => decide (hfun g = hfun f)) :=
      List.mem_filter.mpr ⟨hf, by simp⟩
    obtain ⟨c, ds, hcds⟩ :=
      List.exists_cons_of_ne_nil (List.ne_nil_of_mem hffil)
    have hlook : dmLookup dmF (hfun f) = some (c :: ds) := by
      rw [hchar (hfun f), dmLookup, hcds]
      rfl
    have hcmem : c ∈ specFirstPerHash hfun (fun _ => false) files :=
      head_filter_mem_spec hfun files (fun _ => false) (hfun f) c ds rfl hcds
    refine ⟨c, ds, hlook, hcmem, ?_⟩
    rw [hcds] at hffil
    rcases List.mem_cons.mp hffil with rfl | hds
    · exact absurd hcmem hnot
    · exact hds

/-- Witness for C4: inputs `a.pdf`, `b.pdf`, `c.pdf` where `b.pdf` and
`c.pdf` are content-identical; only `a.pdf` and `b.pdf` are worked, and
`c.pdf` is recorded behind `b.pdf` in the Index. -/
theorem buildList_dedupe_first_per_hash_witness :
    ∃ dmF,
      buildList
        { stat := fun _ => some ⟨false⟩, glob := fun _ => some []
          hashOf := fun p => if p = "a.pdf".toList then some "h1".toList
            else some "h2".toList }
        true false 4
        ["a.pdf".toList, "b.pdf".toList, "c.pdf".toList] []
        = .ok (specFirstPerHash
            (fun p => if p = "a.pdf".toList then "h1".toList else "h2".toList)
            (fun _ => false)
            ["a.pdf".toList, "b.pdf".toList, "c.pdf".toList]) dmF none ∧
      ∀ f ∈ ["a.pdf".toList, "b.pdf".toList, "c.pdf".toList],
        f ∉ specFirstPerHash
            (fun p => if p = "a.pdf".toList then "h1".toList else "h2".toList)
            (fun _ => false)
            ["a.pdf".toList, "b.pdf".toList, "c.pdf".toList] →
        ∃ c ds, dmLookup dmF
            ((fun p => if p = "a.pdf".toList then "h1".toList else "h2".toList) f)
            = some (c :: ds) ∧
          c ∈ specFirstPerHash
            (fun p => if p = "a.pdf".toList then "h1".toList else "h2".toList)
            (fun _ => false)
            ["a.pdf".toList, "b.pdf".toList, "c.pdf".toList] ∧ f ∈ ds :=
  buildList_dedupe_first_per_hash
    { stat := fun _ => some ⟨false⟩, glob := fun _ => some []
      hashOf := fun p => if p = "a.pdf".toList then some "h1".toList
        else some "h2".toList }
    (fun p => if p = "a.pdf".toList then "h1".toList else "h2".toList)
    ["a.pdf".toList, "b.pdf".toList, "c.pdf".toList] 3
    (by decide) (by decide)

/-- Witness for C8 at concrete environments exercising all four parts. -/
theorem buildList_error_handling_witness :
    (∀ p ∈ (["in.pdf".toList] : List Str), strContains p suffixFixed = false) ∧
    buildListAux
      { stat := fun _ => none, glob := fun _ => some [], hashOf := fun _ => none }
      false 2 ["*.pdf".toList] [] = buildListAux
      { stat := fun _ => none, glob := fun _ => some [], hashOf := fun _ => none }
      false 1 [] [] ∧
    buildListAux
      { stat := fun _ => none, glob := fun _ => some [], hashOf := fun _ => none }
      false 1 ["gone.pdf".toList] [] = .fatal ∧
    buildListAux
      { stat := fun _ => some ⟨true⟩, glob := fun _ => some [], hashOf := fun _ => none }
      false 2 ["adir".toList] [] = buildListAux
      { stat := fun _ => some ⟨true⟩, glob := fun _ => some [], hashOf := fun _ => none }
      false 1 [] [] := by
  refine ⟨?_, ?_, ?_, ?_⟩
  · intro p hp
    have hok : buildListAux
        { stat := fun _ => some ⟨false⟩, glob := fun _ => some [],
          hashOf := fun _ => none }
        false 2 ["in.pdf".toList] [] = .ok ["in.pdf".toList] [] none := by decide
    exact buildList_error_handling.1 _ false 2 ["in.pdf".toList] [] _ [] none hok p hp
  · exact buildList_error_handling.2.1 _ false 0 [] [] "*.pdf".toList
      (by decide) (by decide) (by decide)
  · exact buildList_error_handling.2.2.1 _ false 0 [] [] "gone.pdf".toList
      (by decide) (by decide) (by decide)
  · exact buildList_error_handling.2.2.2 _ false 1 [] [] "adir".toList ⟨true⟩
      (by decide) (by decide) (by decide) (by decide)

/-- Witness for C7 at a concrete failing environment. -/
theorem dupe_stage_failures_are_fatal_witness :
    (ripFixWorkFunc
      { mkdirTemp := true, pdfToTiffOk := true, tiffListOk := true
        tesseractOk := true, compressOk := true
        hashOf := fun _ => none, createOk := fun _ => true }
      c2fs [] false
      { id := "i1".toList, pdf := "a.pdf".toList, temp := "/t/".toList
        out := "./".toList, compress := noneStr, skipExisting := false
        reprocess := false, clean := false, dupes := true }).fatal = true ∧
    (resolveDupes c2env c2dm false "in/a.pdf".toList "./gone.pdf".toList c2fs).fatal
      = true := by
  constructor
  · exact dupe_stage_failures_are_fatal.1 _ c2fs [] false _ (by decide) (by decide)
  · exact dupe_stage_failures_are_fatal.2 c2env c2dm "in/a.pdf".toList
      "./gone.pdf".toList c2fs "h".toList
      ["in/a.pdf".toList, "in/b.pdf".toList] (by decide) (by decide) (by decide)
      ⟨"in/b.pdf".toList, by decide, by decide⟩

